import Mathlib

/-!
Verification of the plex-poster-download repository
(`src/plex_connection.py` and `src/plex_poster_download.py`).

Python strings are modelled as `List Char` (wrapped in `String` at the API
boundary); the bounded scans of `str.split` are modelled with an explicit
fuel argument of one unit per consumed character, so `fuel = s.length` is
always sufficient and every definition is executable by kernel reduction.
The filesystem is modelled as finite lists of file and directory paths,
`os.environ` as a partial map from variable names to values, and Python
exceptions with `Except`.  Literal braces in strings are written with
their `\x7b` / `\x7d` escapes.
-/

namespace PlexPoster

/-- Python exceptions the modelled code can raise: `KeyError` from
`os.environ[...]` / dict lookup, `IndexError` from `[0]` on an empty list,
and `plexapi.exceptions.UnknownType`. -/
inductive PyExc where
  | keyError
  | indexError
  | unknownType
deriving DecidableEq

instance exceptDecEq {ε α : Type} [DecidableEq ε] [DecidableEq α] :
    DecidableEq (Except ε α) := fun x y =>
  match x, y with
  | .ok a, .ok b =>
    if h : a = b then isTrue (by rw [h])
    else isFalse (fun q => h (Except.ok.inj q))
  | .error a, .error b =>
    if h : a = b then isTrue (by rw [h])
    else isFalse (fun q => h (Except.error.inj q))
  | .ok _, .error _ => isFalse (fun q => Except.noConfusion q)
  | .error _, .ok _ => isFalse (fun q => Except.noConfusion q)

/-- Python `s.find(sub) != -1`: does `sub` occur as a contiguous substring
of the second argument? -/
def containsSub (sub : List Char) : List Char → Bool
  | [] => sub.isEmpty
  | c :: rest => sub.isPrefixOf (c :: rest) || containsSub sub rest

/-- Python `title.find(sub) != -1` at the `String` level. -/
def containsStr (s sub : String) : Bool := containsSub sub.data s.data

/-- Python `s.split(sep)` for a non-empty separator (leftmost,
non-overlapping occurrences), with explicit fuel; `fuel = s.length` is
always sufficient, see `pySplitF_fuel`. -/
def pySplitF (sep : List Char) : Nat → List Char → List (List Char)
  | 0, s => [s]
  | fuel + 1, s =>
    match s with
    | [] => [[]]
    | c :: rest =>
      if !sep.isEmpty && sep.isPrefixOf (c :: rest) then
        [] :: pySplitF sep fuel (List.drop sep.length (c :: rest))
      else
        match pySplitF sep fuel rest with
        | [] => [[c]]
        | p :: ps => (c :: p) :: ps

/-- Python `s.split(sep)`. -/
def pySplit (sep s : List Char) : List (List Char) := pySplitF sep s.length s

/-- ASCII whitespace recognised by Python `str.split()` with no
separator argument. -/
def isSpace (c : Char) : Bool :=
  c = ' ' || c = '\t' || c = '\n' || c = '\r' || c = '\x0b' || c = '\x0c'

/-- Python `s.split()` (split on runs of whitespace, dropping empty
pieces), with explicit fuel; `fuel = s.length` is always sufficient. -/
def pySplitWsF : Nat → List Char → List (List Char)
  | 0, _ => []
  | fuel + 1, s =>
    match s with
    | [] => []
    | c :: rest =>
      if isSpace c then pySplitWsF fuel rest
      else
        (c :: rest.takeWhile (fun x => !isSpace x)) ::
          pySplitWsF fuel (rest.dropWhile (fun x => !isSpace x))

/-- Python `s.split()`. -/
def pySplitWs (s : List Char) : List (List Char) := pySplitWsF s.length s

/-- One step of the loop body of `PlexConnection.get_item_guid`
(src/plex_connection.py lines 168-175), executed once the current
`source` has been found in `title`:
`plex` sources use `title.split("plex://")[-1].split()[0]` (where the
trailing `[0]` can raise `IndexError`), other sources use
`title.split("{source-")[-1].split("}")[0]`; with `full` the result is
prefixed with `source://`. -/
def extractSource (title : List Char) (source : String) (full : Bool) :
    Except PyExc String :=
  if source = "plex" then
    match pySplitWs ((pySplit ("plex://").data title).getLastD []) with
    | [] => .error .indexError
    | g :: _ => .ok (if full then source ++ "://" ++ String.mk g else String.mk g)
  else
    .ok (if full then
      source ++ "://" ++ String.mk ((pySplit ("\x7d").data
        ((pySplit ("\x7b" ++ source ++ "-").data title).getLastD [])).headD [])
    else
      String.mk ((pySplit ("\x7d").data
        ((pySplit ("\x7b" ++ source ++ "-").data title).getLastD [])).headD []))

/-- The `for source in lib_sources[lib_type]` loop of `get_item_guid`
(src/plex_connection.py lines 164-176): skip a source whose name does not
occur in `title`, otherwise extract; return `"-1"` when the list is
exhausted. -/
def guidLoop (title : List Char) (full : Bool) : List String → Except PyExc String
  | [] => .ok "-1"
  | source :: rest =>
    if containsSub source.data title then extractSource title source full
    else guidLoop title full rest

/-- The `lib_sources` dict of `get_item_guid` (src/plex_connection.py
lines 160-163); `none` models the `KeyError` raised by indexing with an
unknown kind. -/
def lib_sources (lib_type : String) : Option (List String) :=
  if lib_type = "movie" then some ["tmdb", "imdb", "plex"]
  else if lib_type = "show" then some ["tvdb", "tmdb", "plex"]
  else none

/-- `PlexConnection.get_item_guid` (src/plex_connection.py lines 139-178).
The `KeyError` of an unknown `lib_type` is caught and re-raised as
`plexapi.exceptions.UnknownType`. -/
def get_item_guid (title lib_type : String) (full : Bool) : Except PyExc String :=
  match lib_sources lib_type with
  | none => .error .unknownType
  | some sources => guidLoop title.data full sources

/-- Word characters of the regex `\w` as used by `re.sub('\W+', ' ', _)`
(src/plex_poster_download.py lines 115 and 131), restricted to ASCII:
`[A-Za-z0-9_]`.  (Python's `\w` additionally matches non-ASCII word
characters; every input considered here is ASCII, where the two agree.) -/
def isWordChar (c : Char) : Bool :=
  ('a' ≤ c && c ≤ 'z') || ('A' ≤ c && c ≤ 'Z') || ('0' ≤ c && c ≤ '9') || c = '_'

/-- Fuelled scan of `re.sub('\W+', ' ', s)`: each maximal run of
non-word characters is replaced by one space; `fuel = s.length` is
always sufficient. -/
def sanitizeF : Nat → List Char → List Char
  | 0, _ => []
  | fuel + 1, s =>
    match s with
    | [] => []
    | c :: rest =>
      if isWordChar c then c :: sanitizeF fuel rest
      else ' ' :: sanitizeF fuel (rest.dropWhile (fun x => !isWordChar x))

/-- `re.sub('\W+', ' ', s)` on character lists. -/
def sanitize (s : List Char) : List Char := sanitizeF s.length s

/-- `re.sub('\W+', ' ', s)` on strings. -/
def sanitizeStr (s : String) : String := String.mk (sanitize s.data)

/-- Decimal rendering of a natural number, as produced by a Python
f-string `f"{i}"`; fuelled, `fuel = n + 1` is always sufficient. -/
def natStrAux : Nat → Nat → List Char
  | 0, _ => []
  | fuel + 1, n =>
    if n < 10 then [Nat.digitChar n]
    else natStrAux fuel (n / 10) ++ [Nat.digitChar (n % 10)]

/-- Decimal rendering of a natural number as a `String`. -/
def natStr (n : Nat) : String := String.mk (natStrAux (n + 1) n)

/-- Python `str(child.year)` where `year` is an `int` or `None`. -/
def yearText : Option Nat → String
  | none => "None"
  | some y => natStr y

/-- The name computed for a video item by the download loop
(src/plex_poster_download.py lines 131-133):
`name = re.sub('\W+', ' ', child.title)` followed unconditionally by
`name = f"{name} ({child.year})"`. -/
def video_name (title : String) (year : Option Nat) : String :=
  sanitizeStr title ++ " (" ++ yearText year ++ ")"

/-- The name computed for an album by the download loop
(src/plex_poster_download.py line 115): `re.sub('\W+', ' ', album.title)`,
with no year suffix. -/
def album_name (title : String) : String := sanitizeStr title

/-! ### Filesystem model and `create_save_path` -/

/-- A filesystem state: the existing regular files and the existing
directories, each as a finite list of paths. -/
structure FS where
  files : List String
  dirs : List String
deriving DecidableEq

/-- `Path.joinpath`. -/
def pathJoin (a b : String) : String := a ++ "/" ++ b

/-- `Path.exists()`: true for an existing file or directory. -/
def fsExists (fs : FS) (p : String) : Bool := decide (p ∈ fs.files ∨ p ∈ fs.dirs)

/-- `os.makedirs(d, exist_ok=True)`, modelled on the leaf directory (the
claims only concern the leaf; ancestor creation is elided).  No file is
touched. -/
def makedirs (fs : FS) (d : String) : FS :=
  { fs with dirs := if d ∈ fs.dirs then fs.dirs else d :: fs.dirs }

/-- The save directory chosen by `create_save_path`
(src/plex_poster_download.py lines 45-48): `<save_path>/<library>` when a
save path was given, else `<cwd>/Posters/<library>`. -/
def saveDir (cwd : String) (save_path : Option String) (library : String) : String :=
  match save_path with
  | some sp => pathJoin sp library
  | none => pathJoin cwd (pathJoin "Posters" library)

/-- The candidate path `<dir>/<name>_<i>.png` probed by the dedup loop
(`image_path.with_stem(f"{name}_{i}")`). -/
def candPath (dir name : String) (i : Nat) : String :=
  pathJoin dir (name ++ "_" ++ natStr i ++ ".png")

/-- The initial path `<dir>/<name>.png`. -/
def basePath (dir name : String) : String := pathJoin dir (name ++ ".png")

/-- The `while image_path.with_stem(f"{name}_{i}").exists(): i += 1` loop
of `create_save_path` (src/plex_poster_download.py lines 54-56), fuelled;
`probe_spec` shows any fuel admitting a free index returns the least free
index at or above the start. -/
def probe (fs : FS) (dir name : String) : Nat → Nat → Nat
  | 0, i => i
  | fuel + 1, i =>
    if fsExists fs (candPath dir name i) then probe fs dir name fuel (i + 1) else i

/-- `create_save_path` (src/plex_poster_download.py lines 32-59): create
the save directory, then return `<dir>/<name>.png`, deduplicated with a
`_i` suffix search starting at `i = 1` if that path already exists.  The
probe fuel `|files| + |dirs| + 1` is sufficient by `exists_free_cand`. -/
def create_save_path (fs : FS) (cwd : String) (save_path : Option String)
    (library name : String) : FS × String :=
  let dir := saveDir cwd save_path library
  let fs1 := makedirs fs dir
  let image := basePath dir name
  if fsExists fs1 image then
    (fs1, candPath dir name
      (probe fs1 dir name (fs1.files.length + fs1.dirs.length + 1) 1))
  else
    (fs1, image)

/-! ### Environment, configuration and the download loop -/

/-- `os.environ`, a partial map from variable names to values. -/
def Env : Type := String → Option String

/-- Configuration assembled by `PlexConnection.load_config`
(src/plex_connection.py lines 26-72). -/
structure PlexConfig where
  plex_token : String
  plex_ip : String
  using_public_ip : Bool
  plex_pub_ip : Option String
  libraries : List String
deriving DecidableEq

/-- The address check of `load_config` (src/plex_connection.py line 61):
`ip[:7] == "http://" or ip[:8] == "https://"`. -/
def ipPrefixOk (ip : String) : Bool :=
  (ip.data.take 7 == ("http://").data) || (ip.data.take 8 == ("https://").data)

/-- One iteration of the `for ip in [self.plex_ip, self.plex_pub_ip]`
check: a truthy address that does not start with `http://` or `https://`
is fatal (src/plex_connection.py lines 60-65). -/
def ipCheckFails (ip : String) : Bool := (ip != "") && !(ipPrefixOk ip)

/-- The address validation loop of `load_config`; a `none` public address
is skipped (Python `if ip and ...` with `ip = None`). -/
def checkIps (cfg : PlexConfig) : Except String PlexConfig :=
  if ipCheckFails cfg.plex_ip then
    .error "Invalid IP address. Ensure IP address begins http://."
  else
    match cfg.plex_pub_ip with
    | some pip =>
      if ipCheckFails pip then
        .error "Invalid IP address. Ensure IP address begins http://."
      else .ok cfg
    | none => .ok cfg

/-- `PlexConnection.load_config` (src/plex_connection.py lines 26-72),
restricted to its environment handling; the parsed `config.yml` library
names are passed in as `config_libraries`.  `.error` models `sys.exit`
with the corresponding message. -/
def load_config (env : Env) (config_libraries : List String) :
    Except String PlexConfig :=
  match env "PLEX_TOKEN" with
  | none => .error "Cannot find PLEX_TOKEN in .env file. Please consult the README."
  | some tok =>
    match env "PLEX_SERVER_IP" with
    | some ip =>
      checkIps ⟨tok, ip, false, env "PLEX_SERVER_PUBLIC_IP", config_libraries⟩
    | none =>
      match env "PLEX_SERVER_PUBLIC_IP" with
      | some ip => checkIps ⟨tok, ip, true, none, config_libraries⟩
      | none => .error "Cannot find IP address in .env file. Please consult the README."

/-- Poster URL construction in the download loop
(src/plex_poster_download.py lines 119-122 and 137-140): the base address
and token are re-read from `os.environ` (`PLEX_SERVER_PUBLIC_IP` and
`PLEX_TOKEN`), not taken from the established connection; a missing
variable raises `KeyError`. -/
def build_thumb_url (env : Env) (imageUrl : String) : Except PyExc String :=
  match env "PLEX_SERVER_PUBLIC_IP" with
  | none => .error .keyError
  | some pubIp =>
    match env "PLEX_TOKEN" with
    | none => .error .keyError
    | some tok => .ok (pubIp ++ imageUrl ++ "?X-Plex-Token=" ++ tok)

/-- A video item as seen by the download loop: title, optional year,
optional thumb, and `child.images[0].url`. -/
structure MediaItem where
  title : String
  year : Option Nat
  thumb : Option String
  imageUrl : String

/-- An album as seen by the download loop. -/
structure AlbumItem where
  title : String
  thumb : Option String
  imageUrl : String

/-- Processing of one video item by the download loop
(src/plex_poster_download.py lines 129-146): compute the name, skip when
`child.thumb is None`, otherwise build the poster URL (which can raise
`KeyError`) and request the download.  Returns the name and URL of the
requested download, `none` for a skip. -/
def process_video (env : Env) (item : MediaItem) :
    Except PyExc (Option (String × String)) :=
  let name := video_name item.title item.year
  match item.thumb with
  | none => .ok none
  | some _ =>
    match build_thumb_url env item.imageUrl with
    | .error e => .error e
    | .ok url => .ok (some (name, url))

/-- Processing of one album by the download loop
(src/plex_poster_download.py lines 111-128). -/
def process_album (env : Env) (item : AlbumItem) :
    Except PyExc (Option (String × String)) :=
  let name := album_name item.title
  match item.thumb with
  | none => .ok none
  | some _ =>
    match build_thumb_url env item.imageUrl with
    | .error e => .error e
    | .ok url => .ok (some (name, url))

/-! ### Lemmas about the Python string primitives -/

lemma pySplitF_fuel (sep : List Char) :
    ∀ (f₁ f₂ : Nat) (s : List Char), s.length ≤ f₁ → s.length ≤ f₂ →
      pySplitF sep f₁ s = pySplitF sep f₂ s := by
  intro f₁
  induction f₁ with
  | zero =>
    intro f₂ s h1 _
    have hs : s = [] := List.eq_nil_of_length_eq_zero (Nat.le_zero.mp h1)
    subst hs
    cases f₂ <;> simp [pySplitF]
  | succ f ih =>
    intro f₂ s h1 h2
    cases s with
    | nil => cases f₂ <;> simp [pySplitF]
    | cons c rest =>
      cases f₂ with
      | zero => simp at h2
      | succ f₂' =>
        simp only [pySplitF]
        by_cases hc : (!sep.isEmpty && sep.isPrefixOf (c :: rest)) = true
        · rw [if_pos hc, if_pos hc]
          have hsep : 0 < sep.length := by
            rcases Bool.and_eq_true_iff.mp hc with ⟨h, _⟩
            cases sep with
            | nil => simp at h
            | cons _ _ => simp
          have hlen : (List.drop sep.length (c :: rest)).length ≤ f := by
            rw [List.length_drop]
            simp only [List.length_cons] at h1 ⊢
            omega
          have hlen2 : (List.drop sep.length (c :: rest)).length ≤ f₂' := by
            rw [List.length_drop]
            simp only [List.length_cons] at h2 ⊢
            omega
          rw [ih f₂' _ hlen hlen2]
        · rw [if_neg hc, if_neg hc]
          have hlen : rest.length ≤ f := by
            simp only [List.length_cons] at h1; omega
          have hlen2 : rest.length ≤ f₂' := by
            simp only [List.length_cons] at h2; omega
          rw [ih f₂' _ hlen hlen2]

lemma pySplit_nil (sep : List Char) : pySplit sep [] = [[]] := rfl

lemma pySplit_cons (sep : List Char) (c : Char) (rest : List Char) :
    pySplit sep (c :: rest) =
      if !sep.isEmpty && sep.isPrefixOf (c :: rest) then
        [] :: pySplit sep (List.drop sep.length (c :: rest))
      else
        match pySplit sep rest with
        | [] => [[c]]
        | p :: ps => (c :: p) :: ps := by
  show pySplitF sep (rest.length + 1) (c :: rest) = _
  simp only [pySplitF]
  by_cases hc : (!sep.isEmpty && sep.isPrefixOf (c :: rest)) = true
  · rw [if_pos hc, if_pos hc]
    have hsep : 0 < sep.length := by
      rcases Bool.and_eq_true_iff.mp hc with ⟨h, _⟩
      cases sep with
      | nil => simp at h
      | cons _ _ => simp
    have : (List.drop sep.length (c :: rest)).length ≤ rest.length := by
      rw [List.length_drop]; simp only [List.length_cons]; omega
    rw [pySplitF_fuel sep rest.length (List.drop sep.length (c :: rest)).length _ this le_rfl]
    rfl
  · rw [if_neg hc, if_neg hc]
    rfl

lemma pySplit_ne_nil (sep s : List Char) : pySplit sep s ≠ [] := by
  cases s with
  | nil => simp [pySplit_nil]
  | cons c rest =>
    rw [pySplit_cons]
    split
    · simp
    · split <;> simp

lemma containsSub_cons (sub : List Char) (c : Char) (rest : List Char) :
    containsSub sub (c :: rest) = (sub.isPrefixOf (c :: rest) || containsSub sub rest) := rfl

lemma containsSub_of_isPre {sub s : List Char} (h : sub <+: s) :
    containsSub sub s = true := by
  cases s with
  | nil =>
    have : sub = [] := List.prefix_nil.mp h
    subst this
    rfl
  | cons c rest =>
    rw [containsSub_cons]
    have : sub.isPrefixOf (c :: rest) = true := List.isPrefixOf_iff_prefix.mpr h
    rw [this]
    rfl

lemma containsSub_sandwich (sub x y : List Char) :
    containsSub sub (x ++ sub ++ y) = true := by
  induction x with
  | nil =>
    simp only [List.nil_append]
    exact containsSub_of_isPre (List.prefix_append sub y)
  | cons c x' ih =>
    have : c :: x' ++ sub ++ y = c :: (x' ++ sub ++ y) := by simp
    rw [this, containsSub_cons, ih, Bool.or_true]

lemma pySplit_not_contains {sep s : List Char} (h : containsSub sep s = false) :
    pySplit sep s = [s] := by
  induction s with
  | nil => exact pySplit_nil sep
  | cons c rest ih =>
    rw [containsSub_cons, Bool.or_eq_false_iff] at h
    rw [pySplit_cons, if_neg (by simp [h.1]), ih h.2]

lemma overlap_of_prefix_inside {sep a b : List Char}
    (h : sep <+: a ++ sep ++ b) (_hlen : a.length < sep.length) :
    sep.drop a.length <+: sep := by
  have h1 : sep = (a ++ sep ++ b).take sep.length := List.prefix_iff_eq_take.mp h
  have h2 : sep.drop a.length = ((a ++ sep ++ b).drop a.length).take (sep.length - a.length) := by
    conv_lhs => rw [h1]
    rw [List.drop_take]
  have h3 : (a ++ sep ++ b).drop a.length = sep ++ b := by
    rw [List.append_assoc, List.drop_left]
  rw [h3] at h2
  have h4 : (sep ++ b).take (sep.length - a.length)
      = sep.take (sep.length - a.length) ++ b.take (sep.length - a.length - sep.length) := by
    rw [List.take_append_eq_append_take]
  have h5 : sep.length - a.length - sep.length = 0 := by omega
  rw [h4, h5, List.take_zero, List.append_nil] at h2
  rw [h2]
  exact List.take_prefix _ _

lemma pySplit_self_append {sep b : List Char} (hsep : sep ≠ [])
    (hb : containsSub sep b = false) :
    pySplit sep (sep ++ b) = [[], b] := by
  obtain ⟨c, sep', rfl⟩ : ∃ c s', sep = c :: s' := by
    cases sep with
    | nil => exact absurd rfl hsep
    | cons c s' => exact ⟨c, s', rfl⟩
  have hshape : (c :: sep') ++ b = c :: (sep' ++ b) := rfl
  rw [hshape, pySplit_cons]
  have hpre : (c :: sep').isPrefixOf (c :: (sep' ++ b)) = true := by
    refine List.isPrefixOf_iff_prefix.mpr ?_
    rw [← hshape]
    exact List.prefix_append _ _
  rw [if_pos (by simp [hpre])]
  have hdrop : List.drop (c :: sep').length (c :: (sep' ++ b)) = b := by
    simp only [List.length_cons, List.drop_succ_cons]
    exact List.drop_left sep' b
  rw [hdrop, pySplit_not_contains hb]

lemma pySplit_sep_head_len {sep : List Char} (y : List Char) (hsep : sep ≠ []) :
    2 ≤ (pySplit sep (sep ++ y)).length := by
  obtain ⟨c, sep', rfl⟩ : ∃ c s', sep = c :: s' := by
    cases sep with
    | nil => exact absurd rfl hsep
    | cons c s' => exact ⟨c, s', rfl⟩
  have hshape : (c :: sep') ++ y = c :: (sep' ++ y) := rfl
  rw [hshape, pySplit_cons]
  have hpre : (c :: sep').isPrefixOf (c :: (sep' ++ y)) = true := by
    refine List.isPrefixOf_iff_prefix.mpr ?_
    rw [← hshape]
    exact List.prefix_append _ _
  rw [if_pos (by simp [hpre])]
  have hpos := List.length_pos.mpr
    (pySplit_ne_nil (c :: sep') (List.drop (c :: sep').length (c :: (sep' ++ y))))
  rw [List.length_cons]
  omega

lemma pySplit_two_le :
    ∀ (n : Nat) (sep x y : List Char), x.length ≤ n → sep ≠ [] →
      2 ≤ (pySplit sep (x ++ sep ++ y)).length := by
  intro n
  induction n with
  | zero =>
    intro sep x y hx hsep
    have hx0 : x = [] := List.eq_nil_of_length_eq_zero (Nat.le_zero.mp hx)
    subst hx0
    simp only [List.nil_append]
    exact pySplit_sep_head_len y hsep
  | succ n ih =>
    intro sep x y hx hsep
    cases x with
    | nil =>
      simp only [List.nil_append]
      exact pySplit_sep_head_len y hsep
    | cons c x' =>
      have hshape : (c :: x') ++ sep ++ y = c :: (x' ++ sep ++ y) := by simp
      rw [hshape, pySplit_cons]
      by_cases hc : (!sep.isEmpty && sep.isPrefixOf (c :: (x' ++ sep ++ y))) = true
      · rw [if_pos hc]
        have hpos := List.length_pos.mpr
          (pySplit_ne_nil sep (List.drop sep.length (c :: (x' ++ sep ++ y))))
        rw [List.length_cons]
        omega
      · rw [if_neg hc]
        have hx' : x'.length ≤ n := by
          simp only [List.length_cons] at hx; omega
        have h2 := ih sep x' y hx' hsep
        rcases hps : pySplit sep (x' ++ sep ++ y) with _ | ⟨p, ps⟩
        · exact absurd hps (pySplit_ne_nil sep _)
        · rw [hps] at h2
          simp only [List.length_cons] at h2 ⊢
          omega

/-- No proper suffix of `sep` is a prefix of `sep`; rules out straddling
occurrences in the split lemmas.  Holds for every separator used by the
source and is decidable, so concrete instances close by `decide`. -/
def NoSelfOverlap (sep : List Char) : Prop :=
  ∀ k, k < sep.length → 0 < k → ¬ (sep.drop k <+: sep)

instance (sep : List Char) : Decidable (NoSelfOverlap sep) := by
  unfold NoSelfOverlap
  infer_instance

lemma pySplit_head_sep {sep : List Char} (y : List Char) (hsep : sep ≠ []) :
    (pySplit sep (sep ++ y)).headD [] = [] := by
  obtain ⟨c, sep', rfl⟩ : ∃ c s', sep = c :: s' := by
    cases sep with
    | nil => exact absurd rfl hsep
    | cons c s' => exact ⟨c, s', rfl⟩
  have hshape : (c :: sep') ++ y = c :: (sep' ++ y) := rfl
  rw [hshape, pySplit_cons]
  have hpre : (c :: sep').isPrefixOf (c :: (sep' ++ y)) = true := by
    refine List.isPrefixOf_iff_prefix.mpr ?_
    rw [← hshape]
    exact List.prefix_append _ _
  rw [if_pos (by simp [hpre])]
  rfl

lemma pySplit_last_aux :
    ∀ (n : Nat) (sep a b : List Char), a.length ≤ n → sep ≠ [] →
      NoSelfOverlap sep → containsSub sep b = false →
      (pySplit sep (a ++ sep ++ b)).getLastD [] = b := by
  intro n
  induction n with
  | zero =>
    intro sep a b ha hsep hov hb
    have ha0 : a = [] := List.eq_nil_of_length_eq_zero (Nat.le_zero.mp ha)
    subst ha0
    simp only [List.nil_append]
    rw [pySplit_self_append hsep hb]
    rfl
  | succ n ih =>
    intro sep a b ha hsep hov hb
    cases a with
    | nil =>
      simp only [List.nil_append]
      rw [pySplit_self_append hsep hb]
      rfl
    | cons c a' =>
      have hshape : (c :: a') ++ sep ++ b = c :: (a' ++ sep ++ b) := by simp
      rw [hshape, pySplit_cons]
      by_cases hc : (!sep.isEmpty && sep.isPrefixOf (c :: (a' ++ sep ++ b))) = true
      · rw [if_pos hc]
        have hpre : sep <+: (c :: a') ++ sep ++ b := by
          rw [hshape]
          exact List.isPrefixOf_iff_prefix.mp (Bool.and_eq_true_iff.mp hc).2
        by_cases hlen : sep.length ≤ (c :: a').length
        · -- the occurrence at the front lies inside `c :: a'`
          have hpre1 : sep <+: (c :: a') ++ (sep ++ b) := by
            rw [← List.append_assoc]
            exact hpre
          have hpre0 : (c :: a') <+: (c :: a') ++ (sep ++ b) := List.prefix_append _ _
          have hpre2 : sep <+: c :: a' := List.prefix_of_prefix_length_le hpre1 hpre0 hlen
          obtain ⟨t, ht⟩ := hpre2
          have hdrop : List.drop sep.length (c :: (a' ++ sep ++ b)) = t ++ sep ++ b := by
            rw [← hshape, ← ht]
            have : (sep ++ t) ++ sep ++ b = sep ++ (t ++ sep ++ b) := by simp
            rw [this]
            exact List.drop_left _ _
          rw [hdrop, List.getLastD_cons]
          have htlen : t.length ≤ n := by
            have h1 : (c :: a').length = sep.length + t.length := by
              rw [← ht, List.length_append]
            have h2 : 0 < sep.length := List.length_pos.mpr hsep
            simp only [List.length_cons] at h1 ha
            omega
          exact ih sep t b htlen hsep hov hb
        · -- the front occurrence would straddle our separator: impossible
          exfalso
          push_neg at hlen
          exact hov (c :: a').length hlen (by simp)
            (overlap_of_prefix_inside hpre hlen)
      · rw [if_neg hc]
        have ha' : a'.length ≤ n := by
          simp only [List.length_cons] at ha; omega
        have hlast := ih sep a' b ha' hsep hov hb
        have h2 := pySplit_two_le a'.length sep a' b le_rfl hsep
        rcases hps : pySplit sep (a' ++ sep ++ b) with _ | ⟨p, ps⟩
        · exact absurd hps (pySplit_ne_nil sep _)
        · rw [hps] at hlast h2
          rcases ps with _ | ⟨q, qs⟩
          · simp at h2
          · simp only [List.getLastD_cons] at hlast ⊢
            exact hlast

lemma pySplit_last (sep a b : List Char) (hsep : sep ≠ []) (hov : NoSelfOverlap sep)
    (hb : containsSub sep b = false) :
    (pySplit sep (a ++ sep ++ b)).getLastD [] = b :=
  pySplit_last_aux a.length sep a b le_rfl hsep hov hb

lemma pySplit_head_aux :
    ∀ (n : Nat) (sep x y : List Char), x.length ≤ n → sep ≠ [] →
      NoSelfOverlap sep → containsSub sep x = false →
      (pySplit sep (x ++ sep ++ y)).headD [] = x := by
  intro n
  induction n with
  | zero =>
    intro sep x y hx hsep hov _
    have hx0 : x = [] := List.eq_nil_of_length_eq_zero (Nat.le_zero.mp hx)
    subst hx0
    simp only [List.nil_append]
    exact pySplit_head_sep y hsep
  | succ n ih =>
    intro sep x y hx hsep hov hxc
    cases x with
    | nil =>
      simp only [List.nil_append]
      exact pySplit_head_sep y hsep
    | cons c x' =>
      have hshape : (c :: x') ++ sep ++ y = c :: (x' ++ sep ++ y) := by simp
      rw [hshape, pySplit_cons]
      by_cases hc : (!sep.isEmpty && sep.isPrefixOf (c :: (x' ++ sep ++ y))) = true
      · exfalso
        have hpre : sep <+: (c :: x') ++ sep ++ y := by
          rw [hshape]
          exact List.isPrefixOf_iff_prefix.mp (Bool.and_eq_true_iff.mp hc).2
        by_cases hlen : sep.length ≤ (c :: x').length
        · have hpre1 : sep <+: (c :: x') ++ (sep ++ y) := by
            rw [← List.append_assoc]
            exact hpre
          have hpre0 : (c :: x') <+: (c :: x') ++ (sep ++ y) := List.prefix_append _ _
          have hpre2 : sep <+: c :: x' := List.prefix_of_prefix_length_le hpre1 hpre0 hlen
          rw [containsSub_of_isPre hpre2] at hxc
          exact Bool.true_eq_false.mp hxc
        · push_neg at hlen
          exact hov (c :: x').length hlen (by simp)
            (overlap_of_prefix_inside hpre hlen)
      · rw [if_neg hc]
        have hx' : x'.length ≤ n := by
          simp only [List.length_cons] at hx; omega
        have hxc' : containsSub sep x' = false := by
          rw [containsSub_cons, Bool.or_eq_false_iff] at hxc
          exact hxc.2
        have hhead := ih sep x' y hx' hsep hov hxc'
        rcases hps : pySplit sep (x' ++ sep ++ y) with _ | ⟨p, ps⟩
        · exact absurd hps (pySplit_ne_nil sep _)
        · rw [hps] at hhead
          simp only [List.headD_cons] at hhead ⊢
          rw [hhead]

lemma pySplit_head (sep x y : List Char) (hsep : sep ≠ []) (hov : NoSelfOverlap sep)
    (hx : containsSub sep x = false) :
    (pySplit sep (x ++ sep ++ y)).headD [] = x :=
  pySplit_head_aux x.length sep x y le_rfl hsep hov hx


lemma length_dropWhile_le {α : Type} (p : α → Bool) (l : List α) :
    (l.dropWhile p).length ≤ l.length := by
  induction l with
  | nil => simp
  | cons c t ih =>
    cases hp : p c with
    | true =>
      rw [List.dropWhile_cons, if_pos hp]
      simp only [List.length_cons]
      omega
    | false =>
      rw [List.dropWhile_cons, if_neg (by simp [hp])]

lemma takeWhile_append_all {α : Type} (p : α → Bool) {x : List α} (y : List α)
    (h : ∀ c ∈ x, p c = true) :
    (x ++ y).takeWhile p = x ++ y.takeWhile p := by
  induction x with
  | nil => simp
  | cons c x' ih =>
    have hc : p c = true := h c (by simp)
    have hx' : ∀ c ∈ x', p c = true := fun d hd => h d (by simp [hd])
    simp only [List.cons_append, List.takeWhile_cons, hc, if_pos]
    rw [ih hx']

lemma dropWhile_append_all {α : Type} (p : α → Bool) {x : List α} (y : List α)
    (h : ∀ c ∈ x, p c = true) :
    (x ++ y).dropWhile p = y.dropWhile p := by
  induction x with
  | nil => simp
  | cons c x' ih =>
    have hc : p c = true := h c (by simp)
    have hx' : ∀ c ∈ x', p c = true := fun d hd => h d (by simp [hd])
    simp only [List.cons_append, List.dropWhile_cons, hc, if_pos]
    rw [ih hx']

lemma pySplitWsF_fuel :
    ∀ (f₁ f₂ : Nat) (s : List Char), s.length ≤ f₁ → s.length ≤ f₂ →
      pySplitWsF f₁ s = pySplitWsF f₂ s := by
  intro f₁
  induction f₁ with
  | zero =>
    intro f₂ s h1 _
    have hs : s = [] := List.eq_nil_of_length_eq_zero (Nat.le_zero.mp h1)
    subst hs
    cases f₂ <;> simp [pySplitWsF]
  | succ f ih =>
    intro f₂ s h1 h2
    cases s with
    | nil => cases f₂ <;> simp [pySplitWsF]
    | cons c rest =>
      cases f₂ with
      | zero => simp at h2
      | succ f₂' =>
        simp only [pySplitWsF]
        simp only [List.length_cons] at h1 h2
        by_cases hc : isSpace c = true
        · rw [if_pos hc, if_pos hc]
          exact ih f₂' rest (by omega) (by omega)
        · rw [if_neg hc, if_neg hc]
          have hd := length_dropWhile_le (fun x => !isSpace x) rest
          rw [ih f₂' (rest.dropWhile fun x => !isSpace x) (by omega) (by omega)]

lemma pySplitWs_cons (c : Char) (rest : List Char) :
    pySplitWs (c :: rest) =
      if isSpace c then pySplitWs rest
      else
        (c :: rest.takeWhile (fun x => !isSpace x)) ::
          pySplitWs (rest.dropWhile (fun x => !isSpace x)) := by
  show pySplitWsF (rest.length + 1) (c :: rest) = _
  simp only [pySplitWsF]
  by_cases hc : isSpace c = true
  · rw [if_pos hc, if_pos hc]
    rfl
  · rw [if_neg hc, if_neg hc]
    have hd := length_dropWhile_le (fun x => !isSpace x) rest
    rw [pySplitWsF_fuel rest.length (rest.dropWhile fun x => !isSpace x).length _ hd le_rfl]
    rfl

/-- Python `(g ++ b).split()[0] = g` when `g` is a non-empty run of
non-whitespace characters and `b` is empty or starts with whitespace. -/
lemma pySplitWs_first {g b : List Char} (hg : g ≠ [])
    (hgs : ∀ c ∈ g, isSpace c = false)
    (hb : isSpace (b.headD ' ') = true) :
    ∃ rest, pySplitWs (g ++ b) = g :: rest := by
  obtain ⟨c, g', rfl⟩ : ∃ c t, g = c :: t := by
    cases g with
    | nil => exact absurd rfl hg
    | cons c t => exact ⟨c, t, rfl⟩
  have hc : isSpace c = false := hgs c (by simp)
  have hshape : (c :: g') ++ b = c :: (g' ++ b) := rfl
  rw [hshape, pySplitWs_cons, if_neg (by simp [hc])]
  refine ⟨pySplitWs ((g' ++ b).dropWhile fun x => !isSpace x), ?_⟩
  have hg' : ∀ d ∈ g', (fun x => !isSpace x) d = true := by
    intro d hd
    simp [hgs d (by simp [hd])]
  have htw : (g' ++ b).takeWhile (fun x => !isSpace x) = g' := by
    rw [takeWhile_append_all _ b hg']
    have : b.takeWhile (fun x => !isSpace x) = [] := by
      cases b with
      | nil => rfl
      | cons d t =>
        simp only [List.headD_cons] at hb
        rw [List.takeWhile_cons, if_neg (by simp [hb])]
    rw [this, List.append_nil]
  rw [htw]


lemma strMk_data (s : String) : String.mk s.data = s := rfl

lemma guidLoop_cons (t : List Char) (full : Bool) (s : String) (rest : List String) :
    guidLoop t full (s :: rest)
      = if containsSub s.data t then extractSource t s full
        else guidLoop t full rest := rfl

lemma get_item_guid_movie (t : String) (full : Bool) :
    get_item_guid t "movie" full = guidLoop t.data full ["tmdb", "imdb", "plex"] := rfl

lemma get_item_guid_show (t : String) (full : Bool) :
    get_item_guid t "show" full = guidLoop t.data full ["tvdb", "tmdb", "plex"] := rfl

/-- Evaluation of `extractSource` for a non-`plex` source on a title of
the form `a ++ \x7bsource- ++ idd ++ \x7d ++ b`, when the opening
delimiter does not recur after its last shown occurrence and `idd`
contains no closing brace. -/
lemma extractSource_token_list (source : String) (sep a idd b : List Char) (full : Bool)
    (hsrc : source ≠ "plex")
    (hsepeq : sep = ("\x7b" ++ source ++ "-").data)
    (hsep : sep ≠ []) (hov : NoSelfOverlap sep)
    (h1 : containsSub sep (idd ++ ['\x7d'] ++ b) = false)
    (h2 : containsSub ['\x7d'] idd = false) :
    extractSource (a ++ sep ++ (idd ++ ['\x7d'] ++ b)) source full
      = .ok (if full then source ++ "://" ++ String.mk idd else String.mk idd) := by
  unfold extractSource
  rw [if_neg hsrc, ← hsepeq]
  rw [pySplit_last sep a _ hsep hov h1]
  have hdd : ("\x7d" : String).data = ['\x7d'] := rfl
  have hovd : NoSelfOverlap ['\x7d'] := by decide
  rw [hdd, pySplit_head ['\x7d'] idd b (by simp) hovd h2]


lemma guidLoop_skip (t : List Char) (full : Bool) (s : String) (rest : List String)
    (h : containsSub s.data t = false) :
    guidLoop t full (s :: rest) = guidLoop t full rest := by
  rw [guidLoop_cons, if_neg (by simp [h])]

/-- Generic evaluation of the source loop when the head source is a
non-`plex` source whose token is present (and whose opening delimiter
does not recur after the shown token). -/
lemma guid_token_generic (source : String) (srcs : List String) (a idd b : String)
    (full : Bool) (hsrc : source ≠ "plex")
    (hov : NoSelfOverlap (("\x7b" ++ source ++ "-" : String).data))
    (h1 : containsStr (idd ++ "\x7d" ++ b) ("\x7b" ++ source ++ "-") = false)
    (h2 : containsStr idd "\x7d" = false) :
    guidLoop (a ++ ("\x7b" ++ source ++ "-") ++ idd ++ "\x7d" ++ b).data full
        (source :: srcs)
      = .ok (if full then source ++ "://" ++ idd else idd) := by
  have hlit : ("\x7b" ++ source ++ "-" : String).data
      = ('\x7b' :: source.data) ++ ['-'] := by
    simp [String.data_append, show ("\x7b" : String).data = ['\x7b'] from rfl,
      show ("-" : String).data = ['-'] from rfl]
  have hdata : (a ++ ("\x7b" ++ source ++ "-") ++ idd ++ "\x7d" ++ b).data
      = a.data ++ ("\x7b" ++ source ++ "-" : String).data
          ++ (idd.data ++ ['\x7d'] ++ b.data) := by
    simp [String.data_append, List.append_assoc,
      show ("\x7d" : String).data = ['\x7d'] from rfl]
  rw [hdata, guidLoop_cons]
  have hfound : containsSub source.data
      (a.data ++ ("\x7b" ++ source ++ "-" : String).data
        ++ (idd.data ++ ['\x7d'] ++ b.data)) = true := by
    have hre : a.data ++ ("\x7b" ++ source ++ "-" : String).data
          ++ (idd.data ++ ['\x7d'] ++ b.data)
        = (a.data ++ ['\x7b']) ++ source.data
            ++ (['-'] ++ (idd.data ++ ['\x7d'] ++ b.data)) := by
      rw [hlit]
      simp [List.append_assoc]
    rw [hre]
    exact containsSub_sandwich _ _ _
  rw [if_pos hfound]
  have h1' : containsSub ("\x7b" ++ source ++ "-" : String).data
      (idd.data ++ ['\x7d'] ++ b.data) = false := by
    have hd : (idd ++ "\x7d" ++ b).data = idd.data ++ ['\x7d'] ++ b.data := by
      simp [String.data_append, List.append_assoc,
        show ("\x7d" : String).data = ['\x7d'] from rfl]
    simp only [containsStr] at h1
    rw [hd] at h1
    exact h1
  have h2' : containsSub ['\x7d'] idd.data = false := by
    simp only [containsStr] at h2
    exact h2
  rw [extractSource_token_list source ("\x7b" ++ source ++ "-" : String).data
    a.data idd.data b.data full hsrc rfl (by rw [hlit]; simp) hov h1' h2']

/-- Evaluation of `extractSource` for the `plex` source. -/
lemma extractSource_plex_list (a g b : List Char) (full : Bool)
    (h1 : containsSub ("plex://" : String).data (g ++ b) = false)
    (hg : g ≠ []) (hgs : ∀ c ∈ g, isSpace c = false)
    (hb : isSpace (b.headD ' ') = true) :
    extractSource (a ++ ("plex://" : String).data ++ (g ++ b)) "plex" full
      = .ok (if full then "plex" ++ "://" ++ String.mk g else String.mk g) := by
  unfold extractSource
  rw [if_pos rfl]
  rw [pySplit_last ("plex://" : String).data a (g ++ b) (by decide) (by decide) h1]
  obtain ⟨rest, hr⟩ := pySplitWs_first hg hgs hb
  rw [hr]

/-- Generic evaluation of the source loop when the head source is `plex`
and a `plex://` token is present with no later `plex://` occurrence. -/
lemma guid_plex_generic (srcs : List String) (a g b : String) (full : Bool)
    (h1 : containsStr (g ++ b) "plex://" = false)
    (hg : g ≠ "") (hgs : ∀ c ∈ g.data, isSpace c = false)
    (hb : isSpace (b.data.headD ' ') = true) :
    guidLoop (a ++ "plex://" ++ g ++ b).data full ("plex" :: srcs)
      = .ok (if full then "plex://" ++ g else g) := by
  have hdata : (a ++ "plex://" ++ g ++ b).data
      = a.data ++ ("plex://" : String).data ++ (g.data ++ b.data) := by
    simp [String.data_append, List.append_assoc]
  rw [hdata, guidLoop_cons]
  have hfound : containsSub ("plex" : String).data
      (a.data ++ ("plex://" : String).data ++ (g.data ++ b.data)) = true := by
    have hre : a.data ++ ("plex://" : String).data ++ (g.data ++ b.data)
        = a.data ++ ("plex" : String).data
            ++ (("://" : String).data ++ (g.data ++ b.data)) := by
      simp [show ("plex://" : String).data
          = ("plex" : String).data ++ ("://" : String).data from rfl, List.append_assoc]
    rw [hre]
    exact containsSub_sandwich _ _ _
  rw [if_pos hfound]
  have hgd : g.data ≠ [] := by
    intro hnil
    apply hg
    cases g with
    | mk l =>
      simp only at hnil
      rw [hnil]
  have h1' : containsSub ("plex://" : String).data (g.data ++ b.data) = false := by
    simp only [containsStr, String.data_append] at h1
    exact h1
  rw [extractSource_plex_list a.data g.data b.data full h1' hgd hgs hb]
  rw [strMk_data]
  cases full with
  | true =>
    rw [if_pos rfl, if_pos rfl]
    rw [show ("plex" ++ "://" : String) = "plex://" from rfl]
  | false => rfl


lemma guid_movie_tmdb (a idd b : String) (full : Bool)
    (h1 : containsStr (idd ++ "\x7d" ++ b) "\x7btmdb-" = false)
    (h2 : containsStr idd "\x7d" = false) :
    get_item_guid (a ++ "\x7btmdb-" ++ idd ++ "\x7d" ++ b) "movie" full
      = .ok (if full then "tmdb://" ++ idd else idd) := by
  rw [get_item_guid_movie]
  have hlit : ("\x7btmdb-" : String) = "\x7b" ++ "tmdb" ++ "-" := rfl
  rw [hlit] at h1 ⊢
  rw [guid_token_generic "tmdb" ["imdb", "plex"] a idd b full (by decide) (by decide) h1 h2]
  cases full with
  | true =>
    rw [if_pos rfl, if_pos rfl, show ("tmdb" ++ "://" : String) = "tmdb://" from rfl]
  | false => rfl

lemma guid_movie_imdb (a idd b : String) (full : Bool)
    (h0 : containsStr (a ++ "\x7bimdb-" ++ idd ++ "\x7d" ++ b) "tmdb" = false)
    (h1 : containsStr (idd ++ "\x7d" ++ b) "\x7bimdb-" = false)
    (h2 : containsStr idd "\x7d" = false) :
    get_item_guid (a ++ "\x7bimdb-" ++ idd ++ "\x7d" ++ b) "movie" full
      = .ok (if full then "imdb://" ++ idd else idd) := by
  rw [get_item_guid_movie]
  rw [guidLoop_skip _ _ _ _ (by simpa only [containsStr] using h0)]
  have hlit : ("\x7bimdb-" : String) = "\x7b" ++ "imdb" ++ "-" := rfl
  rw [hlit] at h1 ⊢
  rw [guid_token_generic "imdb" ["plex"] a idd b full (by decide) (by decide) h1 h2]
  cases full with
  | true =>
    rw [if_pos rfl, if_pos rfl, show ("imdb" ++ "://" : String) = "imdb://" from rfl]
  | false => rfl

lemma guid_movie_plex (a g b : String) (full : Bool)
    (h0 : containsStr (a ++ "plex://" ++ g ++ b) "tmdb" = false)
    (h3 : containsStr (a ++ "plex://" ++ g ++ b) "imdb" = false)
    (h1 : containsStr (g ++ b) "plex://" = false)
    (hg : g ≠ "") (hgs : ∀ c ∈ g.data, isSpace c = false)
    (hb : isSpace (b.data.headD ' ') = true) :
    get_item_guid (a ++ "plex://" ++ g ++ b) "movie" full
      = .ok (if full then "plex://" ++ g else g) := by
  rw [get_item_guid_movie]
  rw [guidLoop_skip _ _ _ _ (by simpa only [containsStr] using h0)]
  rw [guidLoop_skip _ _ _ _ (by simpa only [containsStr] using h3)]
  rw [guid_plex_generic [] a g b full h1 hg hgs hb]

lemma guid_show_tvdb (a idd b : String) (full : Bool)
    (h1 : containsStr (idd ++ "\x7d" ++ b) "\x7btvdb-" = false)
    (h2 : containsStr idd "\x7d" = false) :
    get_item_guid (a ++ "\x7btvdb-" ++ idd ++ "\x7d" ++ b) "show" full
      = .ok (if full then "tvdb://" ++ idd else idd) := by
  rw [get_item_guid_show]
  have hlit : ("\x7btvdb-" : String) = "\x7b" ++ "tvdb" ++ "-" := rfl
  rw [hlit] at h1 ⊢
  rw [guid_token_generic "tvdb" ["tmdb", "plex"] a idd b full (by decide) (by decide) h1 h2]
  cases full with
  | true =>
    rw [if_pos rfl, if_pos rfl, show ("tvdb" ++ "://" : String) = "tvdb://" from rfl]
  | false => rfl

lemma guid_show_tmdb (a idd b : String) (full : Bool)
    (h0 : containsStr (a ++ "\x7btmdb-" ++ idd ++ "\x7d" ++ b) "tvdb" = false)
    (h1 : containsStr (idd ++ "\x7d" ++ b) "\x7btmdb-" = false)
    (h2 : containsStr idd "\x7d" = false) :
    get_item_guid (a ++ "\x7btmdb-" ++ idd ++ "\x7d" ++ b) "show" full
      = .ok (if full then "tmdb://" ++ idd else idd) := by
  rw [get_item_guid_show]
  rw [guidLoop_skip _ _ _ _ (by simpa only [containsStr] using h0)]
  have hlit : ("\x7btmdb-" : String) = "\x7b" ++ "tmdb" ++ "-" := rfl
  rw [hlit] at h1 ⊢
  rw [guid_token_generic "tmdb" ["plex"] a idd b full (by decide) (by decide) h1 h2]
  cases full with
  | true =>
    rw [if_pos rfl, if_pos rfl, show ("tmdb" ++ "://" : String) = "tmdb://" from rfl]
  | false => rfl

lemma guid_show_plex (a g b : String) (full : Bool)
    (h0 : containsStr (a ++ "plex://" ++ g ++ b) "tvdb" = false)
    (h3 : containsStr (a ++ "plex://" ++ g ++ b) "tmdb" = false)
    (h1 : containsStr (g ++ b) "plex://" = false)
    (hg : g ≠ "") (hgs : ∀ c ∈ g.data, isSpace c = false)
    (hb : isSpace (b.data.headD ' ') = true) :
    get_item_guid (a ++ "plex://" ++ g ++ b) "show" full
      = .ok (if full then "plex://" ++ g else g) := by
  rw [get_item_guid_show]
  rw [guidLoop_skip _ _ _ _ (by simpa only [containsStr] using h0)]
  rw [guidLoop_skip _ _ _ _ (by simpa only [containsStr] using h3)]
  rw [guid_plex_generic [] a g b full h1 hg hgs hb]


lemma sanitizeF_fuel :
    ∀ (f₁ f₂ : Nat) (s : List Char), s.length ≤ f₁ → s.length ≤ f₂ →
      sanitizeF f₁ s = sanitizeF f₂ s := by
  intro f₁
  induction f₁ with
  | zero =>
    intro f₂ s h1 _
    have hs : s = [] := List.eq_nil_of_length_eq_zero (Nat.le_zero.mp h1)
    subst hs
    cases f₂ <;> simp [sanitizeF]
  | succ f ih =>
    intro f₂ s h1 h2
    cases s with
    | nil => cases f₂ <;> simp [sanitizeF]
    | cons c rest =>
      cases f₂ with
      | zero => simp at h2
      | succ f₂' =>
        simp only [sanitizeF]
        simp only [List.length_cons] at h1 h2
        by_cases hc : isWordChar c = true
        · rw [if_pos hc, if_pos hc, ih f₂' rest (by omega) (by omega)]
        · rw [if_neg hc, if_neg hc]
          have hd := length_dropWhile_le (fun x => !isWordChar x) rest
          rw [ih f₂' (rest.dropWhile fun x => !isWordChar x) (by omega) (by omega)]

lemma sanitize_cons (c : Char) (rest : List Char) :
    sanitize (c :: rest) =
      if isWordChar c then c :: sanitize rest
      else ' ' :: sanitize (rest.dropWhile (fun x => !isWordChar x)) := by
  show sanitizeF (rest.length + 1) (c :: rest) = _
  simp only [sanitizeF]
  by_cases hc : isWordChar c = true
  · rw [if_pos hc, if_pos hc]
    rfl
  · rw [if_neg hc, if_neg hc]
    have hd := length_dropWhile_le (fun x => !isWordChar x) rest
    rw [sanitizeF_fuel rest.length (rest.dropWhile fun x => !isWordChar x).length _ hd le_rfl]
    rfl

lemma sanitize_word_run :
    ∀ (run rest : List Char), (∀ c ∈ run, isWordChar c = true) →
      sanitize (run ++ rest) = run ++ sanitize rest := by
  intro run
  induction run with
  | nil => simp
  | cons c r ih =>
    intro rest h
    have hc : isWordChar c = true := h c (by simp)
    rw [List.cons_append, sanitize_cons, if_pos hc, ih rest (fun d hd => h d (by simp [hd]))]
    rfl

lemma sanitize_nonword_front (r b : List Char)
    (hr : ∀ c ∈ r, isWordChar c = false) (hne : r ≠ [])
    (hb : isWordChar (b.headD 'a') = true) :
    sanitize (r ++ b) = ' ' :: sanitize b := by
  obtain ⟨c, r', rfl⟩ : ∃ c t, r = c :: t := by
    cases r with
    | nil => exact absurd rfl hne
    | cons c t => exact ⟨c, t, rfl⟩
  rw [List.cons_append, sanitize_cons, if_neg (by simp [hr c (by simp)])]
  congr 1
  have hall : (r' ++ b).dropWhile (fun x => !isWordChar x)
      = b.dropWhile (fun x => !isWordChar x) :=
    dropWhile_append_all _ b (fun d hd => by simp [hr d (by simp [hd])])
  rw [hall]
  cases b with
  | nil => rfl
  | cons d t =>
    simp only [List.headD_cons] at hb
    rw [List.dropWhile_cons, if_neg (by simp [hb])]

lemma getLastD_default_irrel {α : Type} (l : List α) (d₁ d₂ : α) (h : l ≠ []) :
    l.getLastD d₁ = l.getLastD d₂ := by
  cases l with
  | nil => exact absurd rfl h
  | cons c t => rw [List.getLastD_cons, List.getLastD_cons]

lemma getLastD_append {α : Type} (x : List α) {y : List α} (d : α) (hy : y ≠ []) :
    (x ++ y).getLastD d = y.getLastD d := by
  induction x with
  | nil => rfl
  | cons c x' ih =>
    rw [List.cons_append, List.getLastD_cons]
    have hne : x' ++ y ≠ [] := by
      simp [hy]
    rw [getLastD_default_irrel (x' ++ y) c d hne]
    exact ih

lemma getLastD_mem {α : Type} : ∀ (l : List α) (d : α), l ≠ [] → l.getLastD d ∈ l := by
  intro l
  induction l with
  | nil => intro d h; exact absurd rfl h
  | cons c t ih =>
    intro d _
    rw [List.getLastD_cons]
    cases t with
    | nil => simp
    | cons c' t' =>
      have := ih c (by simp)
      simp only [List.mem_cons] at this ⊢
      tauto

lemma dropWhile_ne_nil_of_mem {α : Type} (p : α → Bool) :
    ∀ (l : List α), (∃ c ∈ l, p c = false) → l.dropWhile p ≠ [] := by
  intro l
  induction l with
  | nil => rintro ⟨c, hc, _⟩; simp at hc
  | cons c t ih =>
    rintro ⟨d, hd, hpd⟩
    rw [List.dropWhile_cons]
    by_cases hc : p c = true
    · rw [if_pos hc]
      apply ih
      refine ⟨d, ?_, hpd⟩
      rcases List.mem_cons.mp hd with h | h
      · subst h
        rw [hc] at hpd
        exact absurd hpd (by simp)
      · exact h
    · rw [if_neg hc]
      simp

lemma dropWhile_append_of_mem {α : Type} (p : α → Bool) :
    ∀ (x y : List α), (∃ c ∈ x, p c = false) →
      (x ++ y).dropWhile p = x.dropWhile p ++ y := by
  intro x
  induction x with
  | nil =>
    rintro y ⟨c, hc, _⟩
    simp at hc
  | cons c x' ih =>
    rintro y ⟨d, hd, hpd⟩
    rw [List.cons_append, List.dropWhile_cons, List.dropWhile_cons]
    by_cases hc : p c = true
    · rw [if_pos hc, if_pos hc]
      apply ih
      refine ⟨d, ?_, hpd⟩
      rcases List.mem_cons.mp hd with h | h
      · subst h
        rw [hc] at hpd
        exact absurd hpd (by simp)
      · exact h
    · rw [if_neg hc, if_neg hc]
      rfl

/-- Substitution of one maximal non-word run by a single space, the heart
of the `re.sub` contract: if `r` is a non-empty run of non-word
characters, bounded on the left by a word character (or the start of the
string) and on the right by a word character (or the end), then
sanitising `a ++ r ++ b` replaces `r` by one space and treats `a` and `b`
independently. -/
lemma sanitize_maximal_run_aux :
    ∀ (n : Nat) (a r b : List Char), a.length ≤ n →
      (∀ c ∈ r, isWordChar c = false) → r ≠ [] →
      isWordChar (a.getLastD 'a') = true →
      isWordChar (b.headD 'a') = true →
      sanitize (a ++ r ++ b) = sanitize a ++ ' ' :: sanitize b := by
  intro n
  induction n with
  | zero =>
    intro a r b ha hr hne _ hb
    have ha0 : a = [] := List.eq_nil_of_length_eq_zero (Nat.le_zero.mp ha)
    subst ha0
    simp only [List.nil_append]
    rw [sanitize_nonword_front r b hr hne hb]
    rfl
  | succ n ih =>
    intro a r b ha hr hne hlast hb
    cases a with
    | nil =>
      simp only [List.nil_append]
      rw [sanitize_nonword_front r b hr hne hb]
      rfl
    | cons c a' =>
      have hshape : (c :: a') ++ r ++ b = c :: (a' ++ r ++ b) := by simp
      rw [hshape, sanitize_cons]
      by_cases hc : isWordChar c = true
      · rw [if_pos hc, sanitize_cons, if_pos hc]
        have hlast' : isWordChar (a'.getLastD 'a') = true := by
          rcases eq_or_ne a' [] with h | h
          · subst h
            rfl
          · rw [List.getLastD_cons] at hlast
            rw [getLastD_default_irrel a' c 'a' h] at hlast
            exact hlast
        have ha' : a'.length ≤ n := by
          simp only [List.length_cons] at ha; omega
        rw [ih a' r b ha' hr hne hlast' hb]
        rfl
      · rw [if_neg hc]
        -- `a` itself starts with a non-word character; since its last
        -- character is a word character, the dropWhile stops inside `a'`.
        have ha'ne : a' ≠ [] := by
          intro h
          subst h
          simp only [List.getLastD_cons, List.getLastD_nil] at hlast
          exact hc hlast
        have hmem : ∃ d ∈ a', isWordChar d = false → False := ⟨a'.getLastD 'a',
          getLastD_mem a' 'a' ha'ne, by
            rw [List.getLastD_cons] at hlast
            rw [getLastD_default_irrel a' 'a' c ha'ne]
            intro hfalse
            rw [hfalse] at hlast
            exact absurd hlast (by simp)⟩
        have hmem' : ∃ d ∈ a', (fun x => !isWordChar x) d = false := by
          obtain ⟨d, hd, hw⟩ := hmem
          refine ⟨d, hd, ?_⟩
          cases hdw : isWordChar d with
          | true => simp [hdw]
          | false => exact absurd hdw hw
        have hassoc : a' ++ r ++ b = a' ++ (r ++ b) := by simp
        rw [hassoc, dropWhile_append_of_mem _ a' (r ++ b) hmem']
        rw [sanitize_cons, if_neg hc]
        set a₂ := a'.dropWhile (fun x => !isWordChar x) with ha₂
        have ha₂ne : a₂ ≠ [] := dropWhile_ne_nil_of_mem _ a' hmem'
        have ha₂len : a₂.length ≤ n := by
          have hd := length_dropWhile_le (fun x => !isWordChar x) a'
          rw [← ha₂] at hd
          simp only [List.length_cons] at ha
          omega
        have ha₂last : isWordChar (a₂.getLastD 'a') = true := by
          have hsplit : a'.takeWhile (fun x => !isWordChar x) ++ a₂ = a' :=
            List.takeWhile_append_dropWhile _ _
          rw [List.getLastD_cons] at hlast
          rw [getLastD_default_irrel a' c 'a' ha'ne] at hlast
          rw [← hsplit, getLastD_append _ 'a' ha₂ne] at hlast
          exact hlast
        have hstep := ih a₂ r b ha₂len hr hne ha₂last hb
        have hassoc2 : a₂ ++ (r ++ b) = a₂ ++ r ++ b := by simp
        rw [hassoc2, hstep]
        rfl

/-- Wrapper for `sanitize_maximal_run_aux` with the length argument
discharged. -/
lemma sanitize_maximal_run (a r b : List Char)
    (hr : ∀ c ∈ r, isWordChar c = false) (hne : r ≠ [])
    (hlast : isWordChar (a.getLastD 'a') = true)
    (hb : isWordChar (b.headD 'a') = true) :
    sanitize (a ++ r ++ b) = sanitize a ++ ' ' :: sanitize b :=
  sanitize_maximal_run_aux a.length a r b le_rfl hr hne hlast hb


/-- Value recovered from a decimal character list; proof device for the
injectivity of `natStr`. -/
def valOf (l : List Char) : Nat := l.foldl (fun acc c => acc * 10 + (c.toNat - 48)) 0

lemma digitChar_toNat {n : Nat} (h : n < 10) : (Nat.digitChar n).toNat = n + 48 := by
  interval_cases n <;> rfl

lemma valOf_append_digit (l : List Char) (c : Char) :
    valOf (l ++ [c]) = valOf l * 10 + (c.toNat - 48) := by
  unfold valOf
  rw [List.foldl_append]
  rfl

lemma natStrAux_succ (f n : Nat) :
    natStrAux (f + 1) n =
      if n < 10 then [Nat.digitChar n]
      else natStrAux f (n / 10) ++ [Nat.digitChar (n % 10)] := rfl

lemma valOf_natStrAux : ∀ (fuel n : Nat), n ≤ fuel →
    valOf (natStrAux (fuel + 1) n) = n := by
  intro fuel
  induction fuel with
  | zero =>
    intro n hn
    have h0 : n = 0 := Nat.le_zero.mp hn
    subst h0
    rfl
  | succ f ih =>
    intro n hn
    by_cases h10 : n < 10
    · rw [natStrAux_succ, if_pos h10]
      unfold valOf
      simp only [List.foldl_cons, List.foldl_nil]
      rw [digitChar_toNat h10]
      omega
    · rw [natStrAux_succ, if_neg h10]
      rw [valOf_append_digit]
      have hdiv : n / 10 ≤ f := by
        have := Nat.div_lt_self (by omega : 0 < n) (by omega : 1 < 10)
        omega
      rw [ih (n / 10) hdiv, digitChar_toNat (Nat.mod_lt n (by omega))]
      omega

lemma natStr_inj : Function.Injective natStr := by
  intro m n h
  have hd : natStrAux (m + 1) m = natStrAux (n + 1) n := congrArg String.data h
  have hm := valOf_natStrAux m m le_rfl
  have hn := valOf_natStrAux n n le_rfl
  rw [← hm, ← hn, hd]

lemma candPath_inj (dir name : String) : Function.Injective (candPath dir name) := by
  intro m n h
  unfold candPath pathJoin at h
  have h1 := congrArg String.data h
  simp only [String.data_append] at h1
  have h2 := List.append_cancel_left h1
  have h3 := List.append_cancel_right h2
  have h4 := List.append_cancel_left h3
  have h5 : natStr m = natStr n := by
    have := congrArg String.mk h4
    rwa [strMk_data, strMk_data] at this
  exact natStr_inj h5

lemma fsExists_iff (fs : FS) (p : String) :
    fsExists fs p = true ↔ p ∈ fs.files ∨ p ∈ fs.dirs := by
  simp [fsExists]

lemma fsExists_false_iff (fs : FS) (p : String) :
    fsExists fs p = false ↔ p ∉ fs.files ∧ p ∉ fs.dirs := by
  simp [fsExists, not_or]

/-- Pigeonhole: within the first `|files| + |dirs| + 1` probed suffixes,
some candidate path is unused (the candidates are pairwise distinct). -/
lemma exists_free_cand (fs : FS) (dir name : String) :
    ∃ j, 1 ≤ j ∧ j < 1 + (fs.files.length + fs.dirs.length + 1) ∧
      fsExists fs (candPath dir name j) = false := by
  by_contra hcon
  push_neg at hcon
  have hall : ∀ j ∈ Finset.Icc 1 (fs.files.length + fs.dirs.length + 1),
      candPath dir name j ∈ fs.files ++ fs.dirs := by
    intro j hj
    simp only [Finset.mem_Icc] at hj
    have h := hcon j hj.1 (by omega)
    have htrue : fsExists fs (candPath dir name j) = true := by
      cases hfe : fsExists fs (candPath dir name j) with
      | true => rfl
      | false => exact absurd hfe h
    rw [List.mem_append]
    exact (fsExists_iff fs _).mp htrue
  have hcard : ((Finset.Icc 1 (fs.files.length + fs.dirs.length + 1)).image
      (candPath dir name)).card = fs.files.length + fs.dirs.length + 1 := by
    rw [Finset.card_image_of_injective _ (candPath_inj dir name), Nat.card_Icc]
    omega
  have hsub : (Finset.Icc 1 (fs.files.length + fs.dirs.length + 1)).image (candPath dir name)
      ⊆ (fs.files ++ fs.dirs).toFinset := by
    intro p hp
    simp only [Finset.mem_image] at hp
    obtain ⟨j, hj, rfl⟩ := hp
    rw [List.mem_toFinset]
    exact hall j hj
  have hle := Finset.card_le_card hsub
  have htf := List.toFinset_card_le (fs.files ++ fs.dirs)
  rw [hcard] at hle
  rw [List.length_append] at htf
  omega

/-- The probe loop returns the least free suffix index at or above its
starting point, provided some index within `fuel` steps is free. -/
lemma probe_spec (fs : FS) (dir name : String) :
    ∀ (fuel i : Nat),
      (∃ j, i ≤ j ∧ j < i + fuel ∧ fsExists fs (candPath dir name j) = false) →
      i ≤ probe fs dir name fuel i ∧
      fsExists fs (candPath dir name (probe fs dir name fuel i)) = false ∧
      ∀ k, i ≤ k → k < probe fs dir name fuel i →
        fsExists fs (candPath dir name k) = true := by
  intro fuel
  induction fuel with
  | zero =>
    rintro i ⟨j, hj1, hj2, _⟩
    exfalso
    omega
  | succ f ih =>
    intro i hex
    simp only [probe]
    by_cases hc : fsExists fs (candPath dir name i) = true
    · rw [if_pos hc]
      have hex' : ∃ j, i + 1 ≤ j ∧ j < (i + 1) + f ∧
          fsExists fs (candPath dir name j) = false := by
        obtain ⟨j, hj1, hj2, hj3⟩ := hex
        refine ⟨j, ?_, by omega, hj3⟩
        rcases Nat.eq_or_lt_of_le hj1 with h | h
        · exfalso
          rw [← h] at hj3
          rw [hc] at hj3
          exact absurd hj3 (by simp)
        · omega
      obtain ⟨h1, h2, h3⟩ := ih (i + 1) hex'
      refine ⟨by omega, h2, ?_⟩
      intro k hk1 hk2
      rcases Nat.eq_or_lt_of_le hk1 with h | h
      · rw [← h]
        exact hc
      · exact h3 k (by omega) hk2
    · rw [if_neg hc]
      have hfalse : fsExists fs (candPath dir name i) = false := by
        cases hfe : fsExists fs (candPath dir name i) with
        | true => exact absurd hfe hc
        | false => rfl
      refine ⟨le_rfl, hfalse, ?_⟩
      intro k hk1 hk2
      exfalso
      omega

lemma csp_fst (fs : FS) (cwd : String) (sp : Option String) (lib name : String) :
    (create_save_path fs cwd sp lib name).1 = makedirs fs (saveDir cwd sp lib) := by
  simp only [create_save_path]
  split <;> rfl

lemma csp_snd_free (fs : FS) (cwd : String) (sp : Option String) (lib name : String)
    (h : fsExists (makedirs fs (saveDir cwd sp lib))
      (basePath (saveDir cwd sp lib) name) = false) :
    (create_save_path fs cwd sp lib name).2 = basePath (saveDir cwd sp lib) name := by
  simp only [create_save_path]
  rw [if_neg (by simp [h])]

lemma csp_snd_occupied (fs : FS) (cwd : String) (sp : Option String) (lib name : String)
    (h : fsExists (makedirs fs (saveDir cwd sp lib))
      (basePath (saveDir cwd sp lib) name) = true) :
    (create_save_path fs cwd sp lib name).2
      = candPath (saveDir cwd sp lib) name
          (probe (makedirs fs (saveDir cwd sp lib)) (saveDir cwd sp lib) name
            ((makedirs fs (saveDir cwd sp lib)).files.length
              + (makedirs fs (saveDir cwd sp lib)).dirs.length + 1) 1) := by
  simp only [create_save_path]
  rw [if_pos h]

/-- Existence hypothesis for `probe_spec` at the fuel used by
`create_save_path`. -/
lemma csp_probe_ex (fs1 : FS) (dir name : String) :
    ∃ j, 1 ≤ j ∧ j < 1 + (fs1.files.length + fs1.dirs.length + 1) ∧
      fsExists fs1 (candPath dir name j) = false :=
  exists_free_cand fs1 dir name

lemma csp_result_free (fs : FS) (cwd : String) (sp : Option String) (lib name : String) :
    fsExists (create_save_path fs cwd sp lib name).1
      (create_save_path fs cwd sp lib name).2 = false := by
  rw [csp_fst]
  by_cases h : fsExists (makedirs fs (saveDir cwd sp lib))
      (basePath (saveDir cwd sp lib) name) = true
  · rw [csp_snd_occupied fs cwd sp lib name h]
    have hspec := probe_spec (makedirs fs (saveDir cwd sp lib)) (saveDir cwd sp lib) name
      ((makedirs fs (saveDir cwd sp lib)).files.length
        + (makedirs fs (saveDir cwd sp lib)).dirs.length + 1) 1
      (csp_probe_ex (makedirs fs (saveDir cwd sp lib)) (saveDir cwd sp lib) name)
    exact hspec.2.1
  · have hfalse : fsExists (makedirs fs (saveDir cwd sp lib))
        (basePath (saveDir cwd sp lib) name) = false := by
      cases hfe : fsExists (makedirs fs (saveDir cwd sp lib))
          (basePath (saveDir cwd sp lib) name) with
      | true => exact absurd hfe h
      | false => rfl
    rw [csp_snd_free fs cwd sp lib name hfalse]
    exact hfalse


/-- String append is associative (needed to massage literal names). -/
lemma strAppend_assoc (s t u : String) : (s ++ t) ++ u = s ++ (t ++ u) := by
  have hd : ((s ++ t) ++ u).data = (s ++ (t ++ u)).data := by
    simp [String.data_append, List.append_assoc]
  calc (s ++ t) ++ u = String.mk (((s ++ t) ++ u).data) := (strMk_data _).symm
    _ = String.mk ((s ++ (t ++ u)).data) := by rw [hd]
    _ = s ++ (t ++ u) := strMk_data _

lemma sanitize_nil : sanitize [] = [] := rfl

/-! ### Claim theorems -/

/-- Claim C1, amended: `get_item_guid` keys its priority search on the
occurrence of the source name as a plain substring, not on the presence
of a well-formed token.  For movie strings the order is tmdb, imdb, plex
and for show strings tvdb, tmdb, plex; when the first source name that
occurs as a substring is the one whose well-formed token the string
contains (no higher-priority source name occurring anywhere, and the
chosen source's opening delimiter not recurring after the token), the
identifier of that token is returned.  In particular, for a movie string
containing both an imdb token and a tmdb token, the tmdb identifier is
returned. -/
theorem claim_C1 :
    (∀ (a idd b : String) (full : Bool),
        containsStr (idd ++ "\x7d" ++ b) "\x7btmdb-" = false →
        containsStr idd "\x7d" = false →
        get_item_guid (a ++ "\x7btmdb-" ++ idd ++ "\x7d" ++ b) "movie" full
          = .ok (if full then "tmdb://" ++ idd else idd))
    ∧ (∀ (a idd b : String) (full : Bool),
        containsStr (a ++ "\x7bimdb-" ++ idd ++ "\x7d" ++ b) "tmdb" = false →
        containsStr (idd ++ "\x7d" ++ b) "\x7bimdb-" = false →
        containsStr idd "\x7d" = false →
        get_item_guid (a ++ "\x7bimdb-" ++ idd ++ "\x7d" ++ b) "movie" full
          = .ok (if full then "imdb://" ++ idd else idd))
    ∧ (∀ (a g b : String) (full : Bool),
        containsStr (a ++ "plex://" ++ g ++ b) "tmdb" = false →
        containsStr (a ++ "plex://" ++ g ++ b) "imdb" = false →
        containsStr (g ++ b) "plex://" = false →
        g ≠ "" → (∀ c ∈ g.data, isSpace c = false) →
        isSpace (b.data.headD ' ') = true →
        get_item_guid (a ++ "plex://" ++ g ++ b) "movie" full
          = .ok (if full then "plex://" ++ g else g))
    ∧ (∀ (a idd b : String) (full : Bool),
        containsStr (idd ++ "\x7d" ++ b) "\x7btvdb-" = false →
        containsStr idd "\x7d" = false →
        get_item_guid (a ++ "\x7btvdb-" ++ idd ++ "\x7d" ++ b) "show" full
          = .ok (if full then "tvdb://" ++ idd else idd))
    ∧ (∀ (a idd b : String) (full : Bool),
        containsStr (a ++ "\x7btmdb-" ++ idd ++ "\x7d" ++ b) "tvdb" = false →
        containsStr (idd ++ "\x7d" ++ b) "\x7btmdb-" = false →
        containsStr idd "\x7d" = false →
        get_item_guid (a ++ "\x7btmdb-" ++ idd ++ "\x7d" ++ b) "show" full
          = .ok (if full then "tmdb://" ++ idd else idd))
    ∧ (∀ (a g b : String) (full : Bool),
        containsStr (a ++ "plex://" ++ g ++ b) "tvdb" = false →
        containsStr (a ++ "plex://" ++ g ++ b) "tmdb" = false →
        containsStr (g ++ b) "plex://" = false →
        g ≠ "" → (∀ c ∈ g.data, isSpace c = false) →
        isSpace (b.data.headD ' ') = true →
        get_item_guid (a ++ "plex://" ++ g ++ b) "show" full
          = .ok (if full then "plex://" ++ g else g))
    ∧ get_item_guid "\x7bimdb-tt0110912\x7d \x7btmdb-680\x7d" "movie" false
        = .ok "680" :=
  ⟨guid_movie_tmdb, guid_movie_imdb, guid_movie_plex,
   guid_show_tvdb, guid_show_tmdb, guid_show_plex, by decide⟩

/-- Claim C1, counterexample to the original wording: in
`"tmdb \x7bimdb-tt1\x7d"` the only source whose token is present is
imdb (identifier `tt1`), but because the name `tmdb` occurs as a plain
substring the code takes the tmdb branch and returns the text up to the
first closing brace instead of `tt1`. -/
theorem claim_C1_counterexample :
    get_item_guid "tmdb \x7bimdb-tt1\x7d" "movie" false = .ok "tmdb \x7bimdb-tt1"
    ∧ (Except.ok "tmdb \x7bimdb-tt1" : Except PyExc String) ≠ .ok "tt1" := by
  decide

/-- Claim C1, witness: the amended theorem applied at a concrete movie
string containing a tmdb token. -/
theorem claim_C1_witness :
    get_item_guid ("" ++ "\x7btmdb-" ++ "680" ++ "\x7d" ++ "") "movie" false
      = .ok "680" := by
  have h := claim_C1.1 "" "680" "" false (by decide) (by decide)
  simpa using h

/-- Claim C2: the code violates the claim.  For a title containing a
source name as a plain substring but no token, the sentinel `"-1"` that
the docstring promises is not returned; instead the split pipeline
returns the input text up to the first closing brace (here the whole
string). -/
theorem claim_C2 :
    get_item_guid "foo tmdb bar" "movie" false = .ok "foo tmdb bar"
    ∧ (Except.ok "foo tmdb bar" : Except PyExc String) ≠ .ok "-1" := by
  decide

/-- Claim C3: `create_save_path` returns a path that does not exist in
the post-state; the base path is returned when free, otherwise the first
free suffix `_i` found by a monotone search starting at `i = 1`. -/
theorem claim_C3 :
    ∀ (fs : FS) (cwd : String) (sp : Option String) (lib name : String),
      fsExists (create_save_path fs cwd sp lib name).1
          (create_save_path fs cwd sp lib name).2 = false
      ∧ (fsExists (makedirs fs (saveDir cwd sp lib))
            (basePath (saveDir cwd sp lib) name) = false →
          (create_save_path fs cwd sp lib name).2 = basePath (saveDir cwd sp lib) name)
      ∧ (fsExists (makedirs fs (saveDir cwd sp lib))
            (basePath (saveDir cwd sp lib) name) = true →
          ∃ i, 1 ≤ i
            ∧ (create_save_path fs cwd sp lib name).2
                = candPath (saveDir cwd sp lib) name i
            ∧ fsExists (makedirs fs (saveDir cwd sp lib))
                (candPath (saveDir cwd sp lib) name i) = false
            ∧ ∀ k, 1 ≤ k → k < i →
                fsExists (makedirs fs (saveDir cwd sp lib))
                  (candPath (saveDir cwd sp lib) name k) = true) := by
  intro fs cwd sp lib name
  refine ⟨csp_result_free fs cwd sp lib name, csp_snd_free fs cwd sp lib name, ?_⟩
  intro h
  have hspec := probe_spec (makedirs fs (saveDir cwd sp lib)) (saveDir cwd sp lib) name
    ((makedirs fs (saveDir cwd sp lib)).files.length
      + (makedirs fs (saveDir cwd sp lib)).dirs.length + 1) 1
    (csp_probe_ex (makedirs fs (saveDir cwd sp lib)) (saveDir cwd sp lib) name)
  exact ⟨probe (makedirs fs (saveDir cwd sp lib)) (saveDir cwd sp lib) name
      ((makedirs fs (saveDir cwd sp lib)).files.length
        + (makedirs fs (saveDir cwd sp lib)).dirs.length + 1) 1,
    hspec.1, csp_snd_occupied fs cwd sp lib name h, hspec.2.1, hspec.2.2⟩

/-- Claim C3, witness: with `Foo.png` and `Foo_1.png` existing, the
returned path is `Foo_2.png`, and it does not exist. -/
theorem claim_C3_witness :
    (create_save_path ⟨["d/L/Foo.png", "d/L/Foo_1.png"], []⟩ "c" (some "d") "L" "Foo").2
        = "d/L/Foo_2.png"
    ∧ fsExists (create_save_path ⟨["d/L/Foo.png", "d/L/Foo_1.png"], []⟩
          "c" (some "d") "L" "Foo").1
        (create_save_path ⟨["d/L/Foo.png", "d/L/Foo_1.png"], []⟩
          "c" (some "d") "L" "Foo").2 = false
    ∧ ∃ i, 1 ≤ i
        ∧ (create_save_path ⟨["d/L/Foo.png", "d/L/Foo_1.png"], []⟩
            "c" (some "d") "L" "Foo").2 = candPath (saveDir "c" (some "d") "L") "Foo" i := by
  have h := claim_C3 ⟨["d/L/Foo.png", "d/L/Foo_1.png"], []⟩ "c" (some "d") "L" "Foo"
  obtain ⟨i, hi1, hi2, _, _⟩ := h.2.2 (by decide)
  exact ⟨by decide, h.1, i, hi1, hi2⟩

/-- Claim C4, amended: the `(YEAR)` suffix is appended unconditionally;
for a known year it is the decimal year, for an unknown year the text
`None` (Python's `str(None)`). -/
theorem claim_C4 :
    (∀ (title : String) (y : Nat),
        video_name title (some y) = sanitizeStr title ++ " (" ++ natStr y ++ ")")
    ∧ (∀ title : String, video_name title none = sanitizeStr title ++ " (None)") := by
  constructor
  · intro title y
    rfl
  · intro title
    show sanitizeStr title ++ " (" ++ "None" ++ ")" = sanitizeStr title ++ " (None)"
    rw [strAppend_assoc, strAppend_assoc]
    congr 1

/-- Claim C4, counterexample to the original wording: for a video item
with an unknown year the year suffix is still appended, producing
`"A (None)"` rather than the bare sanitized title `"A"`. -/
theorem claim_C4_counterexample :
    sanitizeStr "A" = "A" ∧ video_name "A" none = "A (None)"
    ∧ ("A (None)" : String) ≠ "A" := by
  decide

/-- Claim C5: extraction with any kind other than movie or show fails
with the typed `UnknownType` error; no value is returned. -/
theorem claim_C5 :
    ∀ (title lib_type : String) (full : Bool),
      lib_type ≠ "movie" → lib_type ≠ "show" →
      get_item_guid title lib_type full = .error .unknownType := by
  intro title lt full h1 h2
  unfold get_item_guid lib_sources
  rw [if_neg h1, if_neg h2]

/-- Claim C5, witness: kind `album` raises `UnknownType`. -/
theorem claim_C5_witness :
    get_item_guid "\x7btmdb-680\x7d" "album" false = .error .unknownType :=
  claim_C5 "\x7btmdb-680\x7d" "album" false (by decide) (by decide)

/-- Claim C6, amended: extraction takes the text after the *last*
occurrence of the opening delimiter; the claim holds for every string
containing a `\x7btmdb-123\x7d` token provided the opening delimiter
`\x7btmdb-` does not occur again after it. -/
theorem claim_C6 :
    ∀ (a b : String) (full : Bool),
      containsStr ("123" ++ "\x7d" ++ b) "\x7btmdb-" = false →
      get_item_guid (a ++ "\x7btmdb-" ++ "123" ++ "\x7d" ++ b) "movie" full
        = .ok (if full then "tmdb://123" else "123") := by
  intro a b full h1
  refine (guid_movie_tmdb a "123" b full h1 (by decide)).trans ?_
  cases full <;> rfl

/-- Claim C6, counterexample to the original wording: the string
`"\x7btmdb-123\x7d\x7btmdb-999\x7d"` contains a `\x7btmdb-123\x7d`
token but extraction returns `"999"`, the identifier after the last
`\x7btmdb-` occurrence, not `"123"`. -/
theorem claim_C6_counterexample :
    get_item_guid "\x7btmdb-123\x7d\x7btmdb-999\x7d" "movie" false = .ok "999"
    ∧ (Except.ok "999" : Except PyExc String) ≠ .ok "123" := by
  decide

/-- Claim C6, witness: the amended theorem applied in both short and full
form at a concrete title. -/
theorem claim_C6_witness :
    get_item_guid ("pre " ++ "\x7btmdb-" ++ "123" ++ "\x7d" ++ " post") "movie" true
      = .ok "tmdb://123" :=
  claim_C6 "pre " " post" true (by decide)

/-- Claim C7, amended: for a movie string containing a `plex://movie/456`
token, followed by whitespace or the end of the string, with no later
`plex://` occurrence, and in which neither `tmdb` nor `imdb` occurs as a
substring (otherwise a higher-priority branch fires on the bare name),
extraction returns `movie/456`, or `plex://movie/456` in full form. -/
theorem claim_C7 :
    ∀ (a b : String) (full : Bool),
      containsStr (a ++ "plex://" ++ "movie/456" ++ b) "tmdb" = false →
      containsStr (a ++ "plex://" ++ "movie/456" ++ b) "imdb" = false →
      containsStr ("movie/456" ++ b) "plex://" = false →
      isSpace (b.data.headD ' ') = true →
      get_item_guid (a ++ "plex://" ++ "movie/456" ++ b) "movie" full
        = .ok (if full then "plex://movie/456" else "movie/456") := by
  intro a b full h0 h3 h1 hb
  refine (guid_movie_plex a "movie/456" b full h0 h3 h1 (by decide) (by decide) hb).trans ?_
  cases full <;> rfl

/-- Claim C7, counterexample to the original wording: in
`"tmdb plex://movie/456"` the only recognized token is
`plex://movie/456`, but the bare substring `tmdb` sends the code down the
tmdb branch, which returns the whole string instead of `movie/456`. -/
theorem claim_C7_counterexample :
    get_item_guid "tmdb plex://movie/456" "movie" false = .ok "tmdb plex://movie/456"
    ∧ (Except.ok "tmdb plex://movie/456" : Except PyExc String) ≠ .ok "movie/456" := by
  decide

/-- Claim C7, witness: the amended theorem applied at a concrete title in
short and full form. -/
theorem claim_C7_witness :
    get_item_guid ("guid: " ++ "plex://" ++ "movie/456" ++ "") "movie" true
      = .ok "plex://movie/456" :=
  claim_C7 "guid: " "" true (by decide) (by decide) (by decide) (by decide)

/-- Claim C8: sanitization acts as the identity on strings of word
characters, replaces every maximal run of non-word characters (bounded by
word characters or the ends of the string) by a single space, and maps
`"Spider-Man: Far From Home"` to `"Spider Man Far From Home"`. -/
theorem claim_C8 :
    (∀ s : List Char, (∀ c ∈ s, isWordChar c = true) → sanitize s = s)
    ∧ (∀ (a r b : List Char),
        (∀ c ∈ r, isWordChar c = false) → r ≠ [] →
        isWordChar (a.getLastD 'a') = true →
        isWordChar (b.headD 'a') = true →
        sanitize (a ++ r ++ b) = sanitize a ++ ' ' :: sanitize b)
    ∧ sanitizeStr "Spider-Man: Far From Home" = "Spider Man Far From Home" := by
  refine ⟨?_, sanitize_maximal_run, by decide⟩
  intro s h
  have hrun := sanitize_word_run s [] h
  simpa [sanitize_nil] using hrun

/-- Claim C8, witness: the run-replacement part applied at a concrete
title with a two-character non-word run. -/
theorem claim_C8_witness :
    sanitize (['a', 'b'] ++ ['-', ':'] ++ ['c']) = sanitize ['a', 'b'] ++ ' ' :: sanitize ['c']
    ∧ sanitize (['a', 'b'] ++ ['-', ':'] ++ ['c']) = ['a', 'b', ' ', 'c'] := by
  have h := claim_C8.2.1 ['a', 'b'] ['-', ':'] ['c']
    (by decide) (by decide) (by decide) (by decide)
  exact ⟨h, by decide⟩

/-- Claim C9: `create_save_path` creates the save directory, changes no
file, and returns a path that does not exist when it returns. -/
theorem claim_C9 :
    ∀ (fs : FS) (cwd : String) (sp : Option String) (lib name : String),
      (create_save_path fs cwd sp lib name).1.files = fs.files
      ∧ saveDir cwd sp lib ∈ (create_save_path fs cwd sp lib name).1.dirs
      ∧ fsExists (create_save_path fs cwd sp lib name).1
          (create_save_path fs cwd sp lib name).2 = false := by
  intro fs cwd sp lib name
  refine ⟨?_, ?_, csp_result_free fs cwd sp lib name⟩
  · rw [csp_fst]
    rfl
  · rw [csp_fst]
    unfold makedirs
    by_cases h : saveDir cwd sp lib ∈ fs.dirs
    · simp [h]
    · simp [h]

/-- Claim C10: the poster URL is built from the `PLEX_SERVER_PUBLIC_IP`
and `PLEX_TOKEN` environment variables, not from the connection's
resolved address; with only `PLEX_SERVER_IP` set (which suffices for
`load_config`), processing any item with a poster raises `KeyError`. -/
theorem claim_C10 :
    ∀ (env : Env) (libs : List String) (tok ip : String),
      env "PLEX_TOKEN" = some tok →
      env "PLEX_SERVER_IP" = some ip →
      env "PLEX_SERVER_PUBLIC_IP" = none →
      ipCheckFails ip = false →
      load_config env libs = .ok ⟨tok, ip, false, none, libs⟩
      ∧ (∀ imageUrl, build_thumb_url env imageUrl = .error .keyError)
      ∧ (∀ item : MediaItem, item.thumb ≠ none →
          process_video env item = .error .keyError)
      ∧ (∀ album : AlbumItem, album.thumb ≠ none →
          process_album env album = .error .keyError) := by
  intro env libs tok ip htok hip hpub hipok
  have hurl : ∀ imageUrl, build_thumb_url env imageUrl = .error .keyError := by
    intro u
    unfold build_thumb_url
    rw [hpub]
  refine ⟨?_, hurl, ?_, ?_⟩
  · unfold load_config
    rw [htok, hip, hpub]
    show checkIps ⟨tok, ip, false, none, libs⟩ = .ok ⟨tok, ip, false, none, libs⟩
    unfold checkIps
    simp [hipok]
  · intro item hthumb
    unfold process_video
    cases hth : item.thumb with
    | none => exact absurd hth hthumb
    | some t => rw [hurl item.imageUrl]
  · intro album hthumb
    unfold process_album
    cases hth : album.thumb with
    | none => exact absurd hth hthumb
    | some t => rw [hurl album.imageUrl]

/-- Claim C10, witness: a concrete environment with only `PLEX_TOKEN` and
`PLEX_SERVER_IP` set loads successfully, yet processing a video item with
a poster raises `KeyError`. -/
theorem claim_C10_witness :
    load_config
        (fun k => if k = "PLEX_TOKEN" then some "tok"
          else if k = "PLEX_SERVER_IP" then some "http://192.168.0.2:32400" else none)
        ["Movies"]
      = .ok ⟨"tok", "http://192.168.0.2:32400", false, none, ["Movies"]⟩
    ∧ process_video
        (fun k => if k = "PLEX_TOKEN" then some "tok"
          else if k = "PLEX_SERVER_IP" then some "http://192.168.0.2:32400" else none)
        ⟨"Title", some 1999, some "thumb", "/library/metadata/1/thumb"⟩
      = .error .keyError := by
  have h := claim_C10
    (fun k => if k = "PLEX_TOKEN" then some "tok"
      else if k = "PLEX_SERVER_IP" then some "http://192.168.0.2:32400" else none)
    ["Movies"] "tok" "http://192.168.0.2:32400" rfl rfl rfl (by decide)
  exact ⟨h.1, h.2.2.1 ⟨"Title", some 1999, some "thumb", "/library/metadata/1/thumb"⟩
    (by simp)⟩

end PlexPoster
